import Mathlib

/-
Verification of the folder-upload image normalizer.

The development shallowly embeds the code of src/src/App.tsx and
src/unnamed/part_000 (the multi-folder variant, whose compressImage and
grouping logic subsume the single-folder file).  Browser effects are made
explicit:

* a File object is modelled by its observable fields (name, MIME type,
  byte size) plus an abstract payload identifier;
* the image decode / canvas encode pipeline inside convertPngToJpg is
  modelled by a DecodeResult environment value.  The source installs an
  img.onload handler but no onerror handler, so a decode failure leaves
  the promise pending forever; we model a promise that never settles as
  the value none;
* the external imageCompression library call is modelled by an oracle
  mapping the input file and the options object to either a thrown error
  or a result file.  compressImage additionally returns the trace of
  oracle invocations (input file and options of each call) so that the
  retry schedule is observable;
* JavaScript numbers are IEEE-754 binary64.  The quality arithmetic is
  modelled by F64, a significand-exponent pair of integers: subtraction
  computes the exact dyadic difference and then rounds it to a 53-bit
  significand, round-to-nearest ties-to-even, exactly as binary64 does in
  the normal range where all these values live.  The schedule the program
  really passes (0.9, 0.7, then the drifted 0.49999999999999994,
  0.29999999999999993, 0.09999999999999992) is therefore reproduced.
-/

/-- Model of a browser File object: name, declared MIME type, byte size and
an abstract identifier of the binary payload. -/
structure JFile where
  name : String
  type : String
  size : Nat
  content : Nat
deriving DecidableEq

/-- Model of a Blob produced by canvas.toBlob. -/
structure Blob where
  size : Nat
  content : Nat
deriving DecidableEq

/-- Outcome of the decode / re-encode pipeline inside convertPngToJpg:
the image either fails to decode (onload never fires and the source
installs no onerror handler), or decodes but canvas.toBlob hands the
callback a null blob, or decodes and encodes to the given blob. -/
inductive DecodeResult where
  | decodeError
  | encodeFail
  | encoded (b : Blob)
deriving DecidableEq

/-- Outcome of one imageCompression library call: either the promise
rejects (the catch branch runs) or it resolves with a re-encoded file. -/
inductive AttemptResult where
  | err
  | ok (f : JFile)
deriving DecidableEq

/-- Fuel-driven floor of log2 (natLog2F below); the fuel only bounds the
recursion depth, one unit per halving. -/
def natLog2Aux : Nat → Nat → Nat
  | 0, _ => 0
  | fuel + 1, n => if n ≥ 2 then natLog2Aux fuel (n / 2) + 1 else 0

/-- Floor of log2 on positive naturals (0 for 0), kernel-computable. -/
def natLog2F (n : Nat) : Nat := natLog2Aux n n

/-- A finite IEEE-754 binary64 value m * 2 ^ e.  Values produced by the
operations below are canonical: zero is ⟨0, 0⟩ and a nonzero value has
2 ^ 52 ≤ |m| < 2 ^ 53, so equality of the fields is equality of values. -/
structure F64 where
  m : Int
  e : Int
deriving DecidableEq

/-- Round the positive dyadic a * 2 ^ e to a canonical 53-bit significand,
round-to-nearest ties-to-even (normal range; no overflow handling is
needed for the values of this program). -/
def f64NormPos (a : Nat) (e : Int) : F64 :=
  let L := natLog2F a
  if L ≤ 52 then
    ⟨(a * 2 ^ (52 - L) : Nat), e - (52 - L)⟩
  else
    let k := L - 52
    let q := a / 2 ^ k
    let r := a % 2 ^ k
    let half := 2 ^ (k - 1)
    let q2 := if r < half then q
      else if half < r then q + 1
      else if q % 2 = 0 then q else q + 1
    if q2 = 2 ^ 53 then ⟨(2 ^ 52 : Nat), e + k + 1⟩ else ⟨(q2 : Nat), e + k⟩

/-- Round any dyadic M * 2 ^ e to a canonical binary64 value. -/
def f64Norm (M : Int) (e : Int) : F64 :=
  if M = 0 then ⟨0, 0⟩
  else if 0 < M then f64NormPos M.toNat e
  else
    let p := f64NormPos (-M).toNat e
    ⟨-p.m, p.e⟩

/-- binary64 subtraction: align the exponents, take the exact difference
and round it, which is how IEEE-754 defines the operation. -/
def f64Sub (a b : F64) : F64 :=
  let e0 := min a.e b.e
  f64Norm (a.m * 2 ^ (a.e - e0).toNat - b.m * 2 ^ (b.e - e0).toNat) e0

/-- The binary64 value of the positive decimal literal n / d: round the
fraction to 53 significant bits, ties to even. -/
def f64OfPosFrac (n d : Nat) : F64 :=
  let t : Int := (natLog2F n : Int) - (natLog2F d : Int)
  let ge : Bool :=
    if 0 ≤ t then decide (d * 2 ^ t.toNat ≤ n) else decide (d ≤ n * 2 ^ (-t).toNat)
  let e : Int := if ge then t else t - 1
  let s : Int := 52 - e
  let N : Nat := if 0 ≤ s then n * 2 ^ s.toNat else n
  let D : Nat := if 0 ≤ s then d else d * 2 ^ (-s).toNat
  let q := N / D
  let r := N % D
  let q2 := if 2 * r < D then q
    else if D < 2 * r then q + 1
    else if q % 2 = 0 then q else q + 1
  if q2 = 2 ^ 53 then ⟨(2 ^ 52 : Nat), e - 51⟩ else ⟨(q2 : Nat), e - 52⟩

/-- The binary64 value of the source literal 0.9 (the initial quality). -/
def f09 : F64 := f64OfPosFrac 9 10

/-- The binary64 value of the source literal 0.2 (the quality step). -/
def f02 : F64 := f64OfPosFrac 2 10

/-- The binary64 value of the source literal 0.5 (maxSizeMB). -/
def f05 : F64 := f64OfPosFrac 5 10

/-- The options object built in each iteration of the retry loop of
compressImage. -/
structure CompressOptions where
  maxSizeMB : F64
  maxWidthOrHeight : Nat
  useWebWorker : Bool
  quality : F64
deriving DecidableEq

/-- The ProcessedFile record returned by compressImage. -/
structure ProcessedFile where
  file : JFile
  originalSize : Nat
  compressedSize : Nat
  isCompressed : Bool
  folderName : String
deriving DecidableEq

/-- An uploaded file together with its webkitRelativePath. -/
structure UploadFile where
  relativePath : String
  file : JFile
deriving DecidableEq

/-- The FolderData record of the multi-folder variant. -/
structure FolderData where
  name : String
  files : List JFile
  processedFiles : List ProcessedFile
deriving DecidableEq

/-- JavaScript String.prototype.startsWith: a character-level whole-word
test that pre is an initial segment of s. -/
def jsStartsWith (s pre : String) : Bool :=
  decide (s.toList.take pre.toList.length = pre.toList)

/-- JavaScript String.prototype.split with a one-character separator:
cut the character list at every occurrence of the separator.  Splitting
the empty string yields a single empty segment, as in JavaScript. -/
def splitOnChar (c : Char) : List Char → List (List Char)
  | [] => [[]]
  | a :: rest =>
    let r := splitOnChar c rest
    if a = c then [] :: r
    else
      match r with
      | [] => [[a]]
      | h :: t => (a :: h) :: t

/-- JavaScript String.prototype.replace with a string pattern replaces only
the first occurrence of the pattern.  This is the list-of-characters core:
scan left to right and splice the replacement in at the first match. -/
def replaceFirstAux (pat rep : List Char) : List Char → List Char
  | [] => if pat = [] then rep else []
  | c :: rest =>
    if (c :: rest).take pat.length = pat then
      rep ++ (c :: rest).drop pat.length
    else
      c :: replaceFirstAux pat rep rest

/-- file.name.replace(pat, rep) for a plain string pattern. -/
def jsReplaceFirst (s pat rep : String) : String :=
  String.mk (replaceFirstAux pat.toList rep.toList s.toList)

/-- Index of the first occurrence of pat in s, used to characterise
replaceFirstAux. -/
def firstMatchPos (pat : List Char) : List Char → Option Nat
  | [] => if pat = [] then some 0 else none
  | c :: rest =>
    if (c :: rest).take pat.length = pat then some 0
    else (firstMatchPos pat rest).map (· + 1)

/-- convertPngToJpg from the source.  A non-PNG file is returned at once.
For a PNG, the environment tells how the decode / encode pipeline behaves:
on decodeError the promise never resolves (result none); on encodeFail the
callback receives a null blob and resolves with the original file; on
encoded b it resolves with a new File over the blob, named by replacing
the first occurrence of ".png" with ".jpg" and typed image/jpeg. -/
def convertPngToJpg (file : JFile) (env : DecodeResult) : Option JFile :=
  if file.type ≠ "image/png" then some file
  else
    match env with
    | DecodeResult.decodeError => none
    | DecodeResult.encodeFail => some file
    | DecodeResult.encoded b =>
      some { name := jsReplaceFirst file.name ".png" ".jpg"
             type := "image/jpeg"
             size := b.size
             content := b.content }

/-- The 500 KiB size threshold (500 * 1024 bytes) of compressImage. -/
def sizeBudget : Nat := 500 * 1024

/-- The options object literal of the retry loop: maxSizeMB 0.5,
maxWidthOrHeight 1920, useWebWorker true and the current quality. -/
def mkOptions (q : F64) : CompressOptions :=
  { maxSizeMB := f05, maxWidthOrHeight := 1920, useWebWorker := true, quality := q }

/-- The while loop of compressImage.  Arguments mirror the mutable locals:
compressedFile, quality, and the remaining attempt count
(maxAttempts - attempts).  Each iteration re-encodes currentFile (not the
previous output) through the oracle; on success quality drops by 0.2 and
the attempt counter advances; on a thrown error the loop breaks keeping
the previous compressedFile.  The second component is the trace of oracle
invocations, each recording the input file and the options passed.
The decrement quality -= 0.2 is binary64 subtraction of the double 0.2. -/
def compressLoop (oracle : JFile → CompressOptions → AttemptResult)
    (currentFile : JFile) :
    JFile → F64 → Nat → JFile × List (JFile × CompressOptions)
  | compressedFile, _, 0 => (compressedFile, [])
  | compressedFile, quality, r + 1 =>
    if compressedFile.size ≤ sizeBudget then (compressedFile, [])
    else
      match oracle currentFile (mkOptions quality) with
      | AttemptResult.err => (compressedFile, [(currentFile, mkOptions quality)])
      | AttemptResult.ok f =>
        let p := compressLoop oracle currentFile f (f64Sub quality f02) r
        (p.1, (currentFile, mkOptions quality) :: p.2)

/-- The conversion prefix of compressImage: currentFile starts as file and
is replaced by the conversion result when the declared type is image/png.
none propagates a conversion promise that never settles. -/
def postConvert (file : JFile) (env : DecodeResult) : Option JFile :=
  if file.type = "image/png" then convertPngToJpg file env else some file

/-- compressImage from the source (multi-folder variant, which also tags
the result with the folder name).  Returns the ProcessedFile together with
the trace of imageCompression invocations; none models a call that never
returns because the PNG conversion promise never settles. -/
def compressImage (file : JFile) (folderName : String) (env : DecodeResult)
    (oracle : JFile → CompressOptions → AttemptResult) :
    Option (ProcessedFile × List (JFile × CompressOptions)) :=
  match postConvert file env with
  | none => none
  | some currentFile =>
    if jsStartsWith currentFile.type "image/" then
      if currentFile.size ≤ sizeBudget then
        some (⟨currentFile, file.size, currentFile.size, false, folderName⟩, [])
      else
        let p := compressLoop oracle currentFile currentFile f09 5
        some (⟨p.1, file.size, p.1.size, true, folderName⟩, p.2)
    else
      some (⟨currentFile, file.size, currentFile.size, false, folderName⟩, [])

/-- The quality after k successive binary64 decrements of q by 0.2. -/
def subIter (q : F64) : Nat → F64
  | 0 => q
  | k + 1 => f64Sub (subIter q k) f02

/-- The quality passed to attempt k (0-based) of the retry loop: 0.9
decremented k times by 0.2 in binary64, i.e. the doubles 0.9, 0.7,
0.49999999999999994, 0.29999999999999993, 0.09999999999999992. -/
def qualitySeq (k : Nat) : F64 := subIter f09 k

/-- Folder name derived from a webkitRelativePath: the first segment of
the split on "/" (pathParts[0]). -/
def folderNameOf (uf : UploadFile) : String :=
  String.mk ((splitOnChar '/' uf.relativePath.toList).headD [])

/-- One step of the Map-based grouping of handleFolderUpload.  A
JavaScript Map preserves insertion order, so pushing a file under a key
either appends to the first (unique) group of that name or appends a new
group at the end. -/
def insertFile (gs : List FolderData) (n : String) (f : JFile) : List FolderData :=
  match gs with
  | [] => [⟨n, [f], []⟩]
  | g :: rest =>
    if g.name = n then { g with files := g.files ++ [f] } :: rest
    else g :: insertFile rest n f

/-- The grouping pass of handleFolderUpload: fold the uploaded file list
into folder groups keyed by the first path segment. -/
def groupFiles (ufs : List UploadFile) : List FolderData :=
  ufs.foldl (fun gs uf => insertFile gs (folderNameOf uf) uf.file) []

/-- Modelled from the spec: the stated ordering contract of grouping.
Groups appear in first-seen order of their names and each group lists, in
input order, exactly the files whose first path segment is its name.
This definition follows the words of the specification and is compared
with groupFiles, which is translated from the source. -/
def groupSpec : List UploadFile → List FolderData
  | [] => []
  | uf :: rest =>
    ⟨folderNameOf uf,
     uf.file :: (rest.filter (fun v => folderNameOf v = folderNameOf uf)).map (fun v => v.file),
     []⟩ ::
    groupSpec (rest.filter (fun v => folderNameOf v ≠ folderNameOf uf))
termination_by l => l.length
decreasing_by
  simp only [List.length_cons]
  exact Nat.lt_succ_of_le (List.length_filter_le _ _)

/-- Auxiliary for reasoning about grouping: extend an existing group with
the matching files of a batch, leaving its other fields unchanged. -/
def extendG (ufs : List UploadFile) (g : FolderData) : FolderData :=
  { g with
    files := g.files ++ (ufs.filter (fun v => folderNameOf v = g.name)).map (fun v => v.file) }

/-- Auxiliary for reasoning about grouping: the effect of pushing a file
onto the one group of a given name, expressed pointwise. -/
def updIf (n : String) (f : JFile) (g : FolderData) : FolderData :=
  if g.name = n then { g with files := g.files ++ [f] } else g

/-- removeFolder from the source: filter the folder list by position,
keeping every entry whose index differs from the removed one. -/
def removeFolder (index : Nat) (l : List FolderData) : List FolderData :=
  (l.enum.filter (fun p => p.1 ≠ index)).map (fun p => p.2)

/-- The setFolders update inside processFiles: replace the processedFiles
of the folder at the given position, keeping name and files. -/
def setProcessedAt (index : Nat) (ps : List ProcessedFile) (l : List FolderData) :
    List FolderData :=
  l.enum.map (fun p => if p.1 = index then { p.2 with processedFiles := ps } else p.2)

/-- The operations that mutate the folders state during a run. -/
inductive Op where
  | upload (batch : List UploadFile)
  | remove (index : Nat)
  | setProcessed (index : Nat) (ps : List ProcessedFile)
deriving DecidableEq

/-- Effect of one operation on the folders state: an upload appends the
grouped batch (setFolders prev => [...prev, ...newFolders]), remove
filters out one index, and processFiles writes back processed results. -/
def applyOp (s : List FolderData) : Op → List FolderData
  | Op.upload batch => s ++ groupFiles batch
  | Op.remove i => removeFolder i s
  | Op.setProcessed i ps => setProcessedAt i ps s

/-- The folders state reached from the initial empty state by a sequence
of operations. -/
def runOps (ops : List Op) : List FolderData :=
  ops.foldl applyOp []

/-- Decrementing once and then k more times is decrementing k + 1 times. -/
theorem subIter_shift (q : F64) : ∀ k, subIter (f64Sub q f02) k = subIter q (k + 1) := by
  intro k
  induction k with
  | zero => rfl
  | succ k ih =>
    show f64Sub (subIter (f64Sub q f02) k) f02 = f64Sub (subIter q (k + 1)) f02
    rw [ih]

/-- Every run of the retry loop makes at most the remaining number of
oracle calls, and the k-th call (0-based) passes currentFile together
with the options built from the start quality decremented k times by the
binary64 value 0.2. -/
theorem compressLoop_trace (oracle : JFile → CompressOptions → AttemptResult)
    (cur : JFile) :
    ∀ (r : Nat) (q : F64) (cf : JFile),
      ∃ m, m ≤ r ∧
        (compressLoop oracle cur cf q r).2
          = (List.range m).map (fun (k : Nat) => (cur, mkOptions (subIter q k))) := by
  intro r
  induction r with
  | zero =>
    intro q cf
    exact ⟨0, Nat.le_refl 0, by simp [compressLoop]⟩
  | succ r ih =>
    intro q cf
    by_cases hs : cf.size ≤ sizeBudget
    · exact ⟨0, Nat.zero_le _, by simp [compressLoop, hs]⟩
    · cases horacle : oracle cur (mkOptions q) with
      | err =>
        refine ⟨1, Nat.le_add_left 1 r, ?_⟩
        have hstep : (compressLoop oracle cur cf q (r + 1)).2 = [(cur, mkOptions q)] := by
          simp [compressLoop, hs, horacle]
        rw [hstep]
        rfl
      | ok f =>
        obtain ⟨m, hm, htr⟩ := ih (f64Sub q f02) f
        refine ⟨m + 1, Nat.succ_le_succ hm, ?_⟩
        have hstep : (compressLoop oracle cur cf q (r + 1)).2
            = (cur, mkOptions q) :: (compressLoop oracle cur f (f64Sub q f02) r).2 := by
          simp [compressLoop, hs, horacle]
        rw [hstep, htr, List.range_succ_eq_map, List.map_cons, List.map_map]
        refine congrArg₂ List.cons rfl ?_
        refine List.map_congr_left (fun k _ => ?_)
        simp only [Function.comp_apply, Nat.succ_eq_add_one]
        rw [subIter_shift]

/-- When the post-conversion file is an oversized image, compressImage
runs the retry loop from quality 0.9 with 5 remaining attempts and
packages its result with isCompressed true. -/
theorem compressImage_big_eq (file : JFile) (fn : String) (env : DecodeResult)
    (oracle : JFile → CompressOptions → AttemptResult) (cur : JFile)
    (hpost : postConvert file env = some cur)
    (himg : jsStartsWith cur.type "image/" = true)
    (hsize : sizeBudget < cur.size) :
    compressImage file fn env oracle
      = some (⟨(compressLoop oracle cur cur f09 5).1, file.size,
               (compressLoop oracle cur cur f09 5).1.size, true, fn⟩,
              (compressLoop oracle cur cur f09 5).2) := by
  have hns : ¬ cur.size ≤ sizeBudget := Nat.not_le.mpr hsize
  unfold compressImage
  rw [hpost]
  simp [himg, hns]

/-- Counterexample to C1: in a concrete 5-attempt run the qualities the
program passes are the binary64 values 0.9, 0.7, 0.49999999999999994,
0.29999999999999993 and 0.09999999999999992; attempts 3-5 differ from the
binary64 values of the decimal literals 0.5, 0.3 and 0.1, so the schedule
is not exactly 0.9, 0.7, 0.5, 0.3, 0.1. -/
theorem compressImage_quality_drift :
    (compressImage ⟨"big.jpg", "image/jpeg", 614400, 0⟩ "G" DecodeResult.encodeFail
        (fun _ _ => AttemptResult.ok ⟨"c.jpg", "image/jpeg", 563200, 2⟩)).map
        (fun p => p.2.map (fun en => en.2.quality))
      = some [⟨8106479329266893, -53⟩, ⟨6305039478318694, -53⟩,
              ⟨9007199254740991, -54⟩, ⟨5404319552844594, -54⟩,
              ⟨7205759403792788, -56⟩] ∧
    f64OfPosFrac 9 10 = ⟨8106479329266893, -53⟩ ∧
    f64OfPosFrac 7 10 = ⟨6305039478318694, -53⟩ ∧
    f64OfPosFrac 5 10 = ⟨4503599627370496, -53⟩ ∧
    f64OfPosFrac 3 10 = ⟨5404319552844595, -54⟩ ∧
    f64OfPosFrac 1 10 = ⟨7205759403792794, -56⟩ ∧
    (⟨9007199254740991, -54⟩ : F64) ≠ f64OfPosFrac 5 10 ∧
    (⟨5404319552844594, -54⟩ : F64) ≠ f64OfPosFrac 3 10 ∧
    (⟨7205759403792788, -56⟩ : F64) ≠ f64OfPosFrac 1 10 := by
  refine ⟨by decide, by decide, by decide, by decide, by decide, by decide,
    by decide, by decide, by decide⟩

/-- C1 amended: for an image whose size after optional PNG conversion
exceeds 500 KiB, the retry loop makes at most 5 re-encode attempts, and
attempt k (0-based) passes the quality obtained from the binary64 literal
0.9 by k binary64 subtractions of 0.2: 0.9, 0.7, 0.49999999999999994,
0.29999999999999993, 0.09999999999999992 (the first two coincide with the
decimal literals, the later ones drift just below 0.5, 0.3, 0.1). -/
theorem compressImage_retry_schedule
    (file : JFile) (fn : String) (env : DecodeResult)
    (oracle : JFile → CompressOptions → AttemptResult) (cur : JFile)
    (pf : ProcessedFile) (tr : List (JFile × CompressOptions))
    (hpost : postConvert file env = some cur)
    (himg : jsStartsWith cur.type "image/" = true)
    (hsize : sizeBudget < cur.size)
    (heq : compressImage file fn env oracle = some (pf, tr)) :
    tr.length ≤ 5 ∧
      ∀ (k : Nat) (h : k < tr.length),
        (tr.get ⟨k, h⟩).2.quality = qualitySeq k := by
  rw [compressImage_big_eq file fn env oracle cur hpost himg hsize] at heq
  have htr : tr = (compressLoop oracle cur cur f09 5).2 := by
    injection heq with h1
    exact (congrArg Prod.snd h1).symm
  subst htr
  obtain ⟨m, hm, he⟩ := compressLoop_trace oracle cur 5 f09 cur
  rw [he]
  constructor
  · simpa using hm
  · intro k h
    simp [mkOptions, qualitySeq]

/-- Witness for the amended C1 at a concrete run: a 600 KiB JPEG whose
first re-encode attempt already succeeds; the trace has one entry and the
schedule bound holds. -/
theorem compressImage_retry_schedule_witness :
    postConvert ⟨"big.jpg", "image/jpeg", 614400, 0⟩ DecodeResult.encodeFail
        = some ⟨"big.jpg", "image/jpeg", 614400, 0⟩ ∧
    jsStartsWith "image/jpeg" "image/" = true ∧
    sizeBudget < 614400 ∧
    compressImage ⟨"big.jpg", "image/jpeg", 614400, 0⟩ "G" DecodeResult.encodeFail
        (fun _ _ => AttemptResult.ok ⟨"c.jpg", "image/jpeg", 100, 2⟩)
      = some (⟨⟨"c.jpg", "image/jpeg", 100, 2⟩, 614400, 100, true, "G"⟩,
              [(⟨"big.jpg", "image/jpeg", 614400, 0⟩, mkOptions f09)]) ∧
    ([(⟨"big.jpg", "image/jpeg", 614400, 0⟩, mkOptions f09)]
        : List (JFile × CompressOptions)).length ≤ 5 :=
  ⟨rfl, rfl, by decide, rfl,
    (compressImage_retry_schedule ⟨"big.jpg", "image/jpeg", 614400, 0⟩ "G"
      DecodeResult.encodeFail
      (fun _ _ => AttemptResult.ok ⟨"c.jpg", "image/jpeg", 100, 2⟩)
      ⟨"big.jpg", "image/jpeg", 614400, 0⟩
      ⟨⟨"c.jpg", "image/jpeg", 100, 2⟩, 614400, 100, true, "G"⟩
      [(⟨"big.jpg", "image/jpeg", 614400, 0⟩, mkOptions f09)]
      rfl rfl (by decide) rfl).1⟩

/-- Counterexample to C10: the independence half holds (each of the 5
attempts of this concrete run re-encodes the same original input file),
but attempt 3 runs at the drifted binary64 quality 0.49999999999999994,
not at 0.9 - 0.2 * 2 = 0.5, so the quality formula of the claim fails. -/
theorem compressImage_attempts_quality_counterexample :
    (compressImage ⟨"big.jpg", "image/jpeg", 614400, 0⟩ "G" DecodeResult.encodeFail
        (fun _ _ => AttemptResult.ok ⟨"c.jpg", "image/jpeg", 563200, 2⟩)).map
        (fun p => p.2.map (fun en => en.1))
      = some [⟨"big.jpg", "image/jpeg", 614400, 0⟩, ⟨"big.jpg", "image/jpeg", 614400, 0⟩,
              ⟨"big.jpg", "image/jpeg", 614400, 0⟩, ⟨"big.jpg", "image/jpeg", 614400, 0⟩,
              ⟨"big.jpg", "image/jpeg", 614400, 0⟩] ∧
    (compressImage ⟨"big.jpg", "image/jpeg", 614400, 0⟩ "G" DecodeResult.encodeFail
        (fun _ _ => AttemptResult.ok ⟨"c.jpg", "image/jpeg", 563200, 2⟩)).map
        (fun p => p.2.map (fun en => decide (en.2.quality = f64OfPosFrac 5 10)))
      = some [false, false, false, false, false] ∧
    qualitySeq 2 = ⟨9007199254740991, -54⟩ ∧
    qualitySeq 2 ≠ f64OfPosFrac 5 10 := by
  refine ⟨by decide, by decide, by decide, by decide⟩

/-- C10 amended: every re-encode attempt of the retry loop is applied to
the same post-conversion input file, never to the output of a previous
attempt — attempts are independent rather than compounding — and attempt
k carries the full options object built from the binary64 quality
qualitySeq k (0.9 decremented k times by 0.2 in binary64). -/
theorem compressImage_attempts_independent
    (file : JFile) (fn : String) (env : DecodeResult)
    (oracle : JFile → CompressOptions → AttemptResult) (cur : JFile)
    (pf : ProcessedFile) (tr : List (JFile × CompressOptions))
    (hpost : postConvert file env = some cur)
    (himg : jsStartsWith cur.type "image/" = true)
    (hsize : sizeBudget < cur.size)
    (heq : compressImage file fn env oracle = some (pf, tr)) :
    ∀ (k : Nat) (h : k < tr.length),
      (tr.get ⟨k, h⟩).1 = cur ∧
      (tr.get ⟨k, h⟩).2 = mkOptions (qualitySeq k) := by
  rw [compressImage_big_eq file fn env oracle cur hpost himg hsize] at heq
  have htr : tr = (compressLoop oracle cur cur f09 5).2 := by
    injection heq with h1
    exact (congrArg Prod.snd h1).symm
  subst htr
  obtain ⟨m, hm, he⟩ := compressLoop_trace oracle cur 5 f09 cur
  rw [he]
  intro k h
  constructor <;> simp [qualitySeq]

/-- Witness for the amended C10: in the concrete one-attempt run the
single oracle call received the original oversized file, not a re-encoded
one. -/
theorem compressImage_attempts_independent_witness :
    postConvert ⟨"big.jpg", "image/jpeg", 614400, 0⟩ DecodeResult.encodeFail
        = some ⟨"big.jpg", "image/jpeg", 614400, 0⟩ ∧
    jsStartsWith "image/jpeg" "image/" = true ∧
    sizeBudget < 614400 ∧
    compressImage ⟨"big.jpg", "image/jpeg", 614400, 0⟩ "G" DecodeResult.encodeFail
        (fun _ _ => AttemptResult.ok ⟨"c.jpg", "image/jpeg", 100, 2⟩)
      = some (⟨⟨"c.jpg", "image/jpeg", 100, 2⟩, 614400, 100, true, "G"⟩,
              [(⟨"big.jpg", "image/jpeg", 614400, 0⟩, mkOptions f09)]) ∧
    (([(⟨"big.jpg", "image/jpeg", 614400, 0⟩, mkOptions f09)]
        : List (JFile × CompressOptions)).get ⟨0, by decide⟩).1
      = ⟨"big.jpg", "image/jpeg", 614400, 0⟩ :=
  ⟨rfl, rfl, by decide, rfl,
    ((compressImage_attempts_independent ⟨"big.jpg", "image/jpeg", 614400, 0⟩ "G"
      DecodeResult.encodeFail
      (fun _ _ => AttemptResult.ok ⟨"c.jpg", "image/jpeg", 100, 2⟩)
      ⟨"big.jpg", "image/jpeg", 614400, 0⟩
      ⟨⟨"c.jpg", "image/jpeg", 100, 2⟩, 614400, 100, true, "G"⟩
      [(⟨"big.jpg", "image/jpeg", 614400, 0⟩, mkOptions f09)]
      rfl rfl (by decide) rfl) 0 (by decide)).1⟩

/-- When every oracle call on currentFile succeeds but never gets under
the budget, a loop with r + 1 remaining attempts uses them all and ends
holding the result of the last attempt, whose quality is the start
quality lowered r times. -/
theorem compressLoop_allOversized (oracle : JFile → CompressOptions → AttemptResult)
    (cur : JFile) (g : CompressOptions → JFile)
    (hok : ∀ opts, oracle cur opts = AttemptResult.ok (g opts))
    (hbig : ∀ opts, sizeBudget < (g opts).size) :
    ∀ (r : Nat) (q : F64) (cf : JFile), sizeBudget < cf.size →
      (compressLoop oracle cur cf q (r + 1)).1 = g (mkOptions (subIter q r)) ∧
      (compressLoop oracle cur cf q (r + 1)).2.length = r + 1 := by
  intro r
  induction r with
  | zero =>
    intro q cf hcf
    have hns : ¬ cf.size ≤ sizeBudget := Nat.not_le.mpr hcf
    constructor
    · simp [compressLoop, hns, hok, subIter]
    · simp [compressLoop, hns, hok]
  | succ r ih =>
    intro q cf hcf
    have hns : ¬ cf.size ≤ sizeBudget := Nat.not_le.mpr hcf
    have hstep1 : (compressLoop oracle cur cf q (r + 2)).1
        = (compressLoop oracle cur (g (mkOptions q)) (f64Sub q f02) (r + 1)).1 := by
      simp [compressLoop, hns, hok]
    have hstep2 : (compressLoop oracle cur cf q (r + 2)).2
        = (cur, mkOptions q)
            :: (compressLoop oracle cur (g (mkOptions q)) (f64Sub q f02) (r + 1)).2 := by
      simp [compressLoop, hns, hok]
    obtain ⟨ihv, ihl⟩ := ih (f64Sub q f02) (g (mkOptions q)) (hbig (mkOptions q))
    constructor
    · rw [hstep1, ihv, subIter_shift]
    · rw [hstep2, List.length_cons, ihl]

/-- C3: if the post-conversion image is oversized and every one of the 5
re-encode attempts succeeds but still yields a result above 500 KiB,
compressImage stops after the 5th attempt and returns that last oversized
result as an ordinary ProcessedFile (a some-value, not an error); the
final attempt ran at qualitySeq 4, the 4-fold binary64 decrement of 0.9
by 0.2. -/
theorem compressImage_allOversized
    (file : JFile) (fn : String) (env : DecodeResult)
    (oracle : JFile → CompressOptions → AttemptResult) (cur : JFile)
    (g : CompressOptions → JFile)
    (hpost : postConvert file env = some cur)
    (himg : jsStartsWith cur.type "image/" = true)
    (hsize : sizeBudget < cur.size)
    (hok : ∀ opts, oracle cur opts = AttemptResult.ok (g opts))
    (hbig : ∀ opts, sizeBudget < (g opts).size) :
    ∃ tr, compressImage file fn env oracle
        = some (⟨g (mkOptions (qualitySeq 4)), file.size,
                 (g (mkOptions (qualitySeq 4))).size, true, fn⟩, tr)
      ∧ tr.length = 5 ∧ sizeBudget < (g (mkOptions (qualitySeq 4))).size := by
  obtain ⟨hv, hl⟩ := compressLoop_allOversized oracle cur g hok hbig 4 f09 cur hsize
  refine ⟨(compressLoop oracle cur cur f09 5).2, ?_, hl, hbig _⟩
  rw [compressImage_big_eq file fn env oracle cur hpost himg hsize, hv]
  rfl

/-- Witness for C3: a 600 KiB JPEG for which every re-encode attempt
returns a 550 KiB file; all 5 attempts run and the oversized result is
returned normally. -/
theorem compressImage_allOversized_witness :
    sizeBudget < 614400 ∧
    ∃ tr, compressImage ⟨"big.jpg", "image/jpeg", 614400, 0⟩ "G" DecodeResult.encodeFail
        (fun _ _ => AttemptResult.ok ⟨"c.jpg", "image/jpeg", 563200, 2⟩)
        = some (⟨⟨"c.jpg", "image/jpeg", 563200, 2⟩, 614400, 563200, true, "G"⟩, tr)
      ∧ tr.length = 5 ∧ sizeBudget < 563200 := by
  refine ⟨by decide, ?_⟩
  exact compressImage_allOversized ⟨"big.jpg", "image/jpeg", 614400, 0⟩ "G"
    DecodeResult.encodeFail
    (fun _ _ => AttemptResult.ok ⟨"c.jpg", "image/jpeg", 563200, 2⟩)
    ⟨"big.jpg", "image/jpeg", 614400, 0⟩
    (fun _ => ⟨"c.jpg", "image/jpeg", 563200, 2⟩)
    rfl rfl (by decide) (fun _ => rfl)
    (fun _ => by show sizeBudget < (563200 : Nat); decide)

/-- A resolved conversion either hands back the input file itself or a
re-encoded file typed image/jpeg. -/
theorem convertPngToJpg_cases (file : JFile) (env : DecodeResult) (f : JFile)
    (h : convertPngToJpg file env = some f) :
    f = file ∨ f.type = "image/jpeg" := by
  unfold convertPngToJpg at h
  by_cases hp : file.type ≠ "image/png"
  · rw [if_pos hp] at h
    exact Or.inl (Option.some.inj h).symm
  · rw [if_neg hp] at h
    cases env with
    | decodeError => exact absurd h (by simp)
    | encodeFail => exact Or.inl (Option.some.inj h).symm
    | encoded b =>
      refine Or.inr ?_
      rw [← Option.some.inj h]

/-- C2: a file whose media type after the optional PNG conversion does not
begin with the image prefix is returned unchanged, with isCompressed false
and compressedSize equal to originalSize (and an empty attempt trace). -/
theorem compressImage_nonImage
    (file : JFile) (fn : String) (env : DecodeResult)
    (oracle : JFile → CompressOptions → AttemptResult) (cur : JFile)
    (hpost : postConvert file env = some cur)
    (himg : jsStartsWith cur.type "image/" = false) :
    compressImage file fn env oracle
      = some (⟨file, file.size, file.size, false, fn⟩, []) := by
  have hcur : cur = file := by
    unfold postConvert at hpost
    by_cases hp : file.type = "image/png"
    · rw [if_pos hp] at hpost
      rcases convertPngToJpg_cases file env cur hpost with h | h
      · exfalso
        rw [h, hp] at himg
        exact absurd himg (by decide)
      · exfalso
        rw [h] at himg
        exact absurd himg (by decide)
    · rw [if_neg hp] at hpost
      exact (Option.some.inj hpost).symm
  subst hcur
  unfold compressImage
  rw [hpost]
  simp [himg]

/-- Witness for C2: a plain text file passes through compressImage
untouched. -/
theorem compressImage_nonImage_witness :
    postConvert ⟨"doc.txt", "text/plain", 100, 0⟩ DecodeResult.encodeFail
        = some ⟨"doc.txt", "text/plain", 100, 0⟩ ∧
    jsStartsWith "text/plain" "image/" = false ∧
    compressImage ⟨"doc.txt", "text/plain", 100, 0⟩ "G" DecodeResult.encodeFail
        (fun _ _ => AttemptResult.err)
      = some (⟨⟨"doc.txt", "text/plain", 100, 0⟩, 100, 100, false, "G"⟩, []) :=
  ⟨rfl, rfl,
    compressImage_nonImage ⟨"doc.txt", "text/plain", 100, 0⟩ "G"
      DecodeResult.encodeFail (fun _ _ => AttemptResult.err)
      ⟨"doc.txt", "text/plain", 100, 0⟩ rfl rfl⟩

/-- Counterexample to C4: on a PNG whose image decode fails, the promise
built by convertPngToJpg never resolves (the source installs an onload
handler but no onerror handler), so the conversion does not return the
original file and normalization produces no result at all; none models
the call that never settles. -/
theorem convertPngToJpg_decode_hang :
    convertPngToJpg ⟨"a.png", "image/png", 100, 0⟩ DecodeResult.decodeError = none ∧
    convertPngToJpg ⟨"a.png", "image/png", 100, 0⟩ DecodeResult.decodeError
        ≠ some ⟨"a.png", "image/png", 100, 0⟩ ∧
    compressImage ⟨"a.png", "image/png", 100, 0⟩ "G" DecodeResult.decodeError
        (fun _ _ => AttemptResult.err) = none :=
  ⟨rfl, by decide, rfl⟩

/-- C4 amended: conversion is best-effort except for decode failures.
If the canvas yields no blob, convertPngToJpg resolves with the original
file unchanged; for every outcome other than a decode failure it resolves
with some file; a non-PNG input is always returned unchanged; but a PNG
whose decode fails leaves the promise pending forever (none). -/
theorem convertPngToJpg_bestEffort (file : JFile) (env : DecodeResult) :
    convertPngToJpg file DecodeResult.encodeFail = some file ∧
    (env ≠ DecodeResult.decodeError → ∃ f, convertPngToJpg file env = some f) ∧
    (file.type ≠ "image/png" → convertPngToJpg file env = some file) ∧
    (file.type = "image/png" →
      convertPngToJpg file DecodeResult.decodeError = none) := by
  refine ⟨?_, ?_, ?_, ?_⟩
  · unfold convertPngToJpg
    by_cases hp : file.type ≠ "image/png"
    · rw [if_pos hp]
    · rw [if_neg hp]
  · intro hne
    unfold convertPngToJpg
    by_cases hp : file.type ≠ "image/png"
    · rw [if_pos hp]
      exact ⟨file, rfl⟩
    · rw [if_neg hp]
      cases env with
      | decodeError => exact absurd rfl hne
      | encodeFail => exact ⟨file, rfl⟩
      | encoded b => exact ⟨_, rfl⟩
  · intro hp
    unfold convertPngToJpg
    rw [if_pos hp]
  · intro hp
    unfold convertPngToJpg
    rw [if_neg (not_not_intro hp)]

/-- Witness for the amended C4: the encode-failure outcome on a concrete
PNG still resolves, handing back some file. -/
theorem convertPngToJpg_bestEffort_witness :
    (DecodeResult.encodeFail ≠ DecodeResult.decodeError) ∧
    ∃ f, convertPngToJpg ⟨"a.png", "image/png", 100, 0⟩ DecodeResult.encodeFail
        = some f :=
  ⟨by decide,
    (convertPngToJpg_bestEffort ⟨"a.png", "image/png", 100, 0⟩
      DecodeResult.encodeFail).2.1 (by decide)⟩

/-- replaceFirstAux rewrites exactly the first occurrence of the pattern:
if the pattern occurs first at index i the result splices the replacement
in at i, and if it never occurs the input is unchanged. -/
theorem replaceFirstAux_eq (pat rep : List Char) :
    ∀ s : List Char,
      replaceFirstAux pat rep s
        = match firstMatchPos pat s with
          | none => s
          | some i => s.take i ++ rep ++ s.drop (i + pat.length) := by
  intro s
  induction s with
  | nil =>
    by_cases hp : pat = []
    · simp [replaceFirstAux, firstMatchPos, hp]
    · simp [replaceFirstAux, firstMatchPos, hp]
  | cons c rest ih =>
    by_cases hm : (c :: rest).take pat.length = pat
    · simp [replaceFirstAux, firstMatchPos, hm]
    · rw [replaceFirstAux, if_neg hm, ih]
      rw [firstMatchPos, if_neg hm]
      cases hfm : firstMatchPos pat rest with
      | none => simp
      | some i =>
        show c :: (List.take i rest ++ rep ++ List.drop (i + pat.length) rest)
            = List.take (i + 1) (c :: rest) ++ rep
                ++ List.drop (i + 1 + pat.length) (c :: rest)
        rw [List.take_succ_cons, List.cons_append, List.cons_append]
        have harith : i + 1 + pat.length = (i + pat.length) + 1 := by omega
        rw [harith, List.drop_succ_cons]

/-- Counterexample to C8: for the PNG named "a.png.png" a successful
conversion produces the name "a.jpg.png", because name.replace replaces
the first occurrence of ".png", not the final extension; replacing the
extension would have produced "a.png.jpg". -/
theorem convertPngToJpg_extension_counterexample :
    convertPngToJpg ⟨"a.png.png", "image/png", 100, 0⟩ (DecodeResult.encoded ⟨40, 1⟩)
        = some ⟨"a.jpg.png", "image/jpeg", 40, 1⟩ ∧
    ("a.jpg.png" : String) ≠ "a.png.jpg" :=
  ⟨by decide, by decide⟩

/-- C8 amended: a successful conversion of a PNG returns a file typed
image/jpeg whose name is the original name with the first occurrence of
".png" replaced by ".jpg" (the name is unchanged when ".png" does not
occur in it); only when the first occurrence is the extension itself does
this coincide with replacing the extension. -/
theorem convertPngToJpg_png_rename
    (file : JFile) (b : Blob) (f : JFile)
    (hp : file.type = "image/png")
    (h : convertPngToJpg file (DecodeResult.encoded b) = some f) :
    f.type = "image/jpeg" ∧
    f.size = b.size ∧
    f.name = jsReplaceFirst file.name ".png" ".jpg" ∧
    (∀ i, firstMatchPos (String.toList ".png") (String.toList file.name) = some i →
      String.toList f.name
        = (String.toList file.name).take i ++ String.toList ".jpg"
            ++ (String.toList file.name).drop (i + 4)) ∧
    (firstMatchPos (String.toList ".png") (String.toList file.name) = none →
      f.name = file.name) := by
  unfold convertPngToJpg at h
  rw [if_neg (not_not_intro hp)] at h
  have hf : f = ⟨jsReplaceFirst file.name ".png" ".jpg", "image/jpeg", b.size, b.content⟩ :=
    (Option.some.inj h).symm
  subst hf
  refine ⟨rfl, rfl, rfl, ?_, ?_⟩
  · intro i hi
    show (jsReplaceFirst file.name ".png" ".jpg").toList = _
    unfold jsReplaceFirst
    show replaceFirstAux (String.toList ".png") (String.toList ".jpg")
        (String.toList file.name) = _
    rw [replaceFirstAux_eq, hi]
    rfl
  · intro hnone
    show jsReplaceFirst file.name ".png" ".jpg" = file.name
    unfold jsReplaceFirst
    rw [replaceFirstAux_eq, hnone]
    rfl

/-- Witness for the amended C8: converting a concrete PNG named "x.png"
renames it to "x.jpg" by splicing at the first (and only) match. -/
theorem convertPngToJpg_png_rename_witness :
    ("image/png" : String) = "image/png" ∧
    convertPngToJpg ⟨"x.png", "image/png", 10, 0⟩ (DecodeResult.encoded ⟨5, 1⟩)
        = some ⟨"x.jpg", "image/jpeg", 5, 1⟩ ∧
    firstMatchPos (String.toList ".png") (String.toList "x.png") = some 1 ∧
    String.toList "x.jpg"
      = (String.toList "x.png").take 1 ++ String.toList ".jpg"
          ++ (String.toList "x.png").drop 5 :=
  ⟨rfl, by decide, by decide,
    (convertPngToJpg_png_rename ⟨"x.png", "image/png", 10, 0⟩ ⟨5, 1⟩
      ⟨"x.jpg", "image/jpeg", 5, 1⟩ rfl (by decide)).2.2.2.1 1 (by decide)⟩

/-- Counterexample to C5: for an oversized JPEG whose single re-encode
attempt throws, no re-encoding of the payload ever succeeded and the
returned payload is the unmodified loop input, yet compressImage reports
isCompressed = true; so isCompressed is not equivalent to a re-encode
having occurred. -/
theorem compressImage_isCompressed_counterexample :
    compressImage ⟨"big.jpg", "image/jpeg", 614400, 0⟩ "G" DecodeResult.encodeFail
        (fun _ _ => AttemptResult.err)
      = some (⟨⟨"big.jpg", "image/jpeg", 614400, 0⟩, 614400, 614400, true, "G"⟩,
              [(⟨"big.jpg", "image/jpeg", 614400, 0⟩, mkOptions f09)]) ∧
    (⟨⟨"big.jpg", "image/jpeg", 614400, 0⟩, 614400, 614400, true, "G"⟩
        : ProcessedFile).isCompressed = true ∧
    (⟨⟨"big.jpg", "image/jpeg", 614400, 0⟩, 614400, 614400, true, "G"⟩
        : ProcessedFile).file = ⟨"big.jpg", "image/jpeg", 614400, 0⟩ :=
  ⟨rfl, rfl, rfl⟩

/-- C5 amended: isCompressed of the returned ProcessedFile is true exactly
when the retry loop was entered, i.e. when the post-conversion file is
image-typed and exceeds the 500 KiB budget; it is true even when no
re-encode attempt succeeded and the returned payload is the unmodified
loop input. -/
theorem compressImage_isCompressed_iff
    (file : JFile) (fn : String) (env : DecodeResult)
    (oracle : JFile → CompressOptions → AttemptResult) (cur : JFile)
    (pf : ProcessedFile) (tr : List (JFile × CompressOptions))
    (hpost : postConvert file env = some cur)
    (heq : compressImage file fn env oracle = some (pf, tr)) :
    pf.isCompressed = true
      ↔ (jsStartsWith cur.type "image/" = true ∧ sizeBudget < cur.size) := by
  by_cases himg : jsStartsWith cur.type "image/" = true
  · by_cases hsz : cur.size ≤ sizeBudget
    · have heq2 : compressImage file fn env oracle
          = some (⟨cur, file.size, cur.size, false, fn⟩, []) := by
        unfold compressImage
        rw [hpost]
        simp [himg, hsz]
      rw [heq2] at heq
      have hpf : pf = ⟨cur, file.size, cur.size, false, fn⟩ :=
        (congrArg Prod.fst (Option.some.inj heq)).symm
      have hnl : ¬ sizeBudget < cur.size := Nat.not_lt.mpr hsz
      rw [hpf]
      simp [himg, hnl]
    · have hbig : sizeBudget < cur.size := Nat.not_le.mp hsz
      rw [compressImage_big_eq file fn env oracle cur hpost himg hbig] at heq
      have hpf : pf = ⟨(compressLoop oracle cur cur f09 5).1, file.size,
          (compressLoop oracle cur cur f09 5).1.size, true, fn⟩ :=
        (congrArg Prod.fst (Option.some.inj heq)).symm
      rw [hpf]
      simp [himg, hbig]
  · have heq2 : compressImage file fn env oracle
        = some (⟨cur, file.size, cur.size, false, fn⟩, []) := by
      unfold compressImage
      rw [hpost]
      simp [himg]
    rw [heq2] at heq
    have hpf : pf = ⟨cur, file.size, cur.size, false, fn⟩ :=
      (congrArg Prod.fst (Option.some.inj heq)).symm
    rw [hpf]
    simp [himg]

/-- Witness for the amended C5: in the concrete error-only run the flag is
true and the loop-entry condition holds. -/
theorem compressImage_isCompressed_iff_witness :
    postConvert ⟨"big.jpg", "image/jpeg", 614400, 0⟩ DecodeResult.encodeFail
        = some ⟨"big.jpg", "image/jpeg", 614400, 0⟩ ∧
    compressImage ⟨"big.jpg", "image/jpeg", 614400, 0⟩ "G" DecodeResult.encodeFail
        (fun _ _ => AttemptResult.err)
      = some (⟨⟨"big.jpg", "image/jpeg", 614400, 0⟩, 614400, 614400, true, "G"⟩,
              [(⟨"big.jpg", "image/jpeg", 614400, 0⟩, mkOptions f09)]) ∧
    ((⟨⟨"big.jpg", "image/jpeg", 614400, 0⟩, 614400, 614400, true, "G"⟩
        : ProcessedFile).isCompressed = true
      ↔ (jsStartsWith "image/jpeg" "image/" = true ∧ sizeBudget < 614400)) :=
  ⟨rfl, rfl,
    compressImage_isCompressed_iff ⟨"big.jpg", "image/jpeg", 614400, 0⟩ "G"
      DecodeResult.encodeFail (fun _ _ => AttemptResult.err)
      ⟨"big.jpg", "image/jpeg", 614400, 0⟩
      ⟨⟨"big.jpg", "image/jpeg", 614400, 0⟩, 614400, 614400, true, "G"⟩
      [(⟨"big.jpg", "image/jpeg", 614400, 0⟩, mkOptions f09)]
      rfl rfl⟩

/-- Inserting under a fresh name appends a new singleton group. -/
theorem insertFile_of_not_mem (n : String) (f : JFile) :
    ∀ gs : List FolderData, n ∉ gs.map (fun g => g.name) →
      insertFile gs n f = gs ++ [⟨n, [f], []⟩] := by
  intro gs
  induction gs with
  | nil => intro _; rfl
  | cons g rest ih =>
    intro hm
    have hg : ¬ g.name = n := by
      intro h
      exact hm (by rw [← h]; exact List.mem_cons_self _ _)
    have hrest : n ∉ rest.map (fun g => g.name) := by
      intro h
      exact hm (List.mem_cons_of_mem _ h)
    simp only [insertFile, hg, if_false, ih hrest, List.cons_append]

/-- The group names after an insertion: unchanged when the name already
exists, extended at the end otherwise. -/
theorem names_insertFile (n : String) (f : JFile) :
    ∀ gs : List FolderData,
      (insertFile gs n f).map (fun g => g.name)
        = if n ∈ gs.map (fun g => g.name) then gs.map (fun g => g.name)
          else gs.map (fun g => g.name) ++ [n] := by
  intro gs
  induction gs with
  | nil => simp [insertFile]
  | cons g rest ih =>
    by_cases hg : g.name = n
    · simp [insertFile, hg]
    · have hg2 : ¬ n = g.name := fun h => hg h.symm
      by_cases hm : n ∈ rest.map (fun g => g.name)
      · simp [insertFile, hg, ih, hm, hg2]
      · simp [insertFile, hg, ih, hm, hg2]

/-- Inserting under an existing name (with pairwise-distinct names)
updates exactly the group of that name, pointwise. -/
theorem insertFile_of_mem (n : String) (f : JFile) :
    ∀ gs : List FolderData, ((gs.map (fun g => g.name)).Nodup) →
      n ∈ gs.map (fun g => g.name) →
      insertFile gs n f = gs.map (updIf n f) := by
  intro gs
  induction gs with
  | nil => intro _ h; simp at h
  | cons g rest ih =>
    intro hnd hm
    rw [List.map_cons] at hnd
    by_cases hg : g.name = n
    · have hrest : n ∉ rest.map (fun g2 => g2.name) := by
        rw [← hg]
        exact (List.nodup_cons.mp hnd).1
      have hmapid : rest.map (updIf n f) = rest := by
        have h1 : ∀ g2 ∈ rest, updIf n f g2 = id g2 := by
          intro g2 hg2
          have hne : ¬ g2.name = n := by
            intro hcon
            exact hrest (by rw [← hcon]; exact List.mem_map_of_mem _ hg2)
          simp [updIf, hne]
        rw [List.map_congr_left h1, List.map_id]
      simp only [insertFile, hg, if_pos, List.map_cons, hmapid, updIf]
    · have hm2 : n ∈ rest.map (fun g2 => g2.name) := by
        rcases List.mem_cons.mp hm with h | h
        · exact absurd h.symm hg
        · exact h
      have hnd2 : (rest.map (fun g2 => g2.name)).Nodup := (List.nodup_cons.mp hnd).2
      have hg2 : updIf n f g = g := by simp [updIf, hg]
      simp only [insertFile, hg, if_false, List.map_cons, hg2, ih hnd2 hm2]

/-- The Map-based grouping fold keeps the group names pairwise distinct. -/
theorem foldl_insert_nodup :
    ∀ (ufs : List UploadFile) (gs : List FolderData),
      ((gs.map (fun g => g.name)).Nodup) →
      (((ufs.foldl (fun acc uf => insertFile acc (folderNameOf uf) uf.file) gs).map
          (fun g => g.name)).Nodup) := by
  intro ufs
  induction ufs with
  | nil => intro gs h; simpa using h
  | cons uf rest ih =>
    intro gs h
    simp only [List.foldl_cons]
    apply ih
    rw [names_insertFile]
    by_cases hm : folderNameOf uf ∈ gs.map (fun g => g.name)
    · simpa [hm] using h
    · simp only [hm, if_false]
      rw [List.nodup_append]
      exact ⟨h, List.nodup_singleton _, by simpa [List.disjoint_singleton] using hm⟩

/-- Master description of the grouping fold started from any state whose
group names are pairwise distinct: existing groups are extended in place
with their matching files, and the files under fresh names are grouped
after them in the first-seen order described by groupSpec. -/
theorem groupFold_eq :
    ∀ (ufs : List UploadFile) (gs : List FolderData),
      ((gs.map (fun g => g.name)).Nodup) →
      ufs.foldl (fun acc uf => insertFile acc (folderNameOf uf) uf.file) gs
        = gs.map (extendG ufs)
          ++ groupSpec (ufs.filter
              (fun v => folderNameOf v ∉ gs.map (fun g => g.name))) := by
  intro ufs
  induction ufs with
  | nil =>
    intro gs hnd
    have h1 : ∀ g ∈ gs, extendG [] g = id g := by
      intro g _
      simp [extendG]
    simp only [List.foldl_nil, List.filter_nil]
    rw [List.map_congr_left h1, List.map_id, groupSpec, List.append_nil]
  | cons uf rest ih =>
    intro gs hnd
    simp only [List.foldl_cons]
    by_cases hm : folderNameOf uf ∈ gs.map (fun g => g.name)
    · rw [insertFile_of_mem _ _ gs hnd hm]
      have hnames : (gs.map (updIf (folderNameOf uf) uf.file)).map (fun g => g.name)
          = gs.map (fun g => g.name) := by
        rw [List.map_map]
        refine List.map_congr_left ?_
        intro g _
        by_cases h : g.name = folderNameOf uf <;> simp [updIf, h]
      have hnd2 : ((gs.map (updIf (folderNameOf uf) uf.file)).map
          (fun g => g.name)).Nodup := by
        rw [hnames]; exact hnd
      rw [ih _ hnd2, hnames]
      have hfilter : (uf :: rest).filter
            (fun v => folderNameOf v ∉ gs.map (fun g => g.name))
          = rest.filter (fun v => folderNameOf v ∉ gs.map (fun g => g.name)) := by
        rw [List.filter_cons]
        simp [hm]
      rw [hfilter, List.map_map]
      congr 1
      refine List.map_congr_left ?_
      intro g _
      show extendG rest (updIf (folderNameOf uf) uf.file g) = extendG (uf :: rest) g
      by_cases hg : g.name = folderNameOf uf
      · have hpass : folderNameOf uf = g.name := hg.symm
        simp only [updIf, if_pos hg, extendG, List.filter_cons, hpass]
        simp
      · have hfail : ¬ folderNameOf uf = g.name := fun h => hg h.symm
        simp only [updIf, if_neg hg, extendG, List.filter_cons, hfail]
        simp
    · rw [insertFile_of_not_mem _ _ gs hm]
      have hnames2 : ((gs ++ [(⟨folderNameOf uf, [uf.file], []⟩ : FolderData)]).map
            (fun g => g.name)).Nodup := by
        rw [List.map_append, List.nodup_append]
        exact ⟨hnd, by simp, by simpa [List.disjoint_singleton] using hm⟩
      rw [ih _ hnames2]
      have hfilter : (uf :: rest).filter
            (fun v => folderNameOf v ∉ gs.map (fun g => g.name))
          = uf :: rest.filter (fun v => folderNameOf v ∉ gs.map (fun g => g.name)) := by
        rw [List.filter_cons]
        simp [hm]
      rw [hfilter, groupSpec, List.map_append, List.append_assoc]
      congr 1
      · refine List.map_congr_left ?_
        intro g hgmem
        have hne : ¬ folderNameOf uf = g.name := by
          intro hcon
          exact hm (by rw [hcon]; exact List.mem_map_of_mem _ hgmem)
        simp only [extendG, List.filter_cons, hne]
        simp
      · rw [List.map_cons, List.map_nil, List.singleton_append]
        congr 1
        · have habsorb : (rest.filter
                (fun v => folderNameOf v ∉ gs.map (fun g => g.name))).filter
                  (fun v => folderNameOf v = folderNameOf uf)
              = rest.filter (fun v => folderNameOf v = folderNameOf uf) := by
            rw [List.filter_filter]
            refine List.filter_congr ?_
            intro v _
            by_cases hv : folderNameOf v = folderNameOf uf
            · simp [hv, hm]
            · simp [hv]
          simp only [extendG, habsorb]
          rw [List.singleton_append]
        · have hfilters : (rest.filter
                (fun v => folderNameOf v ∉ gs.map (fun g => g.name))).filter
                  (fun v => folderNameOf v ≠ folderNameOf uf)
              = rest.filter (fun v => folderNameOf v
                  ∉ (gs ++ [(⟨folderNameOf uf, [uf.file], []⟩ : FolderData)]).map (fun g => g.name)) := by
            rw [List.filter_filter]
            refine List.filter_congr ?_
            intro v _
            by_cases h1 : folderNameOf v = folderNameOf uf
            · simp [h1]
            · by_cases h2 : folderNameOf v ∈ gs.map (fun g => g.name)
              · simp [h1, h2]
              · simp [h1, h2]
          rw [hfilters]

/-- C6: the Map-based grouping of handleFolderUpload agrees with the
specified ordering contract groupSpec: groups appear in first-seen order
of their first path segment and each group lists its files in input
order; in particular A/x.png, B/y.png, A/z.png group as
[A: [x.png, z.png], B: [y.png]]. -/
theorem groupFiles_orderPreserving :
    (∀ ufs : List UploadFile, groupFiles ufs = groupSpec ufs) ∧
    groupFiles
        [⟨"A/x.png", ⟨"x.png", "image/png", 10, 0⟩⟩,
         ⟨"B/y.png", ⟨"y.png", "image/png", 11, 1⟩⟩,
         ⟨"A/z.png", ⟨"z.png", "image/png", 12, 2⟩⟩]
      = [⟨"A", [⟨"x.png", "image/png", 10, 0⟩, ⟨"z.png", "image/png", 12, 2⟩], []⟩,
         ⟨"B", [⟨"y.png", "image/png", 11, 1⟩], []⟩] := by
  constructor
  · intro ufs
    unfold groupFiles
    rw [groupFold_eq ufs [] (by simp)]
    have hall : ufs.filter
          (fun v => folderNameOf v ∉ ([] : List FolderData).map (fun g => g.name))
        = ufs := by
      refine List.filter_eq_self.mpr ?_
      intro v _
      simp
    rw [hall]
    simp
  · decide

/-- The second component of an entry of enumFrom is an element of the
underlying list. -/
theorem snd_mem_of_mem_enumFrom :
    ∀ (l : List FolderData) (n : Nat) (p : Nat × FolderData),
      p ∈ List.enumFrom n l → p.2 ∈ l := by
  intro l
  induction l with
  | nil => intro n p h; simp [List.enumFrom] at h
  | cons a rest ih =>
    intro n p h
    rw [List.enumFrom] at h
    rcases List.mem_cons.mp h with h | h
    · rw [h]
      exact List.mem_cons_self _ _
    · exact List.mem_cons_of_mem _ (ih (n + 1) p h)

/-- removeFolder only drops entries, it never invents a group. -/
theorem mem_removeFolder (i : Nat) (l : List FolderData) (g : FolderData)
    (h : g ∈ removeFolder i l) : g ∈ l := by
  unfold removeFolder at h
  rcases List.mem_map.mp h with ⟨p, hp, hpg⟩
  have hp2 := List.mem_filter.mp hp
  rw [← hpg]
  exact snd_mem_of_mem_enumFrom l 0 p hp2.1

/-- The processFiles write-back keeps every group name and file list. -/
theorem mem_setProcessedAt (i : Nat) (ps : List ProcessedFile)
    (l : List FolderData) (g : FolderData) (h : g ∈ setProcessedAt i ps l) :
    ∃ g₀ ∈ l, g₀.name = g.name ∧ g₀.files = g.files := by
  unfold setProcessedAt at h
  rcases List.mem_map.mp h with ⟨p, hp, hpg⟩
  have hmem := snd_mem_of_mem_enumFrom l 0 p hp
  refine ⟨p.2, hmem, ?_, ?_⟩ <;>
  · rw [← hpg]
    by_cases hc : p.1 = i <;> simp [hc]

/-- Every group in a state reachable from a start state is either carried
over from the start (name and files intact) or was created, name and
files intact, by one of the uploads performed. -/
theorem foldl_applyOp_from :
    ∀ (ops : List Op) (s : List FolderData) (g : FolderData),
      g ∈ ops.foldl applyOp s →
      (∃ g₀ ∈ s, g₀.name = g.name ∧ g₀.files = g.files) ∨
      (∃ batch, Op.upload batch ∈ ops ∧
        ∃ g₀ ∈ groupFiles batch, g₀.name = g.name ∧ g₀.files = g.files) := by
  intro ops
  induction ops with
  | nil =>
    intro s g h
    exact Or.inl ⟨g, h, rfl, rfl⟩
  | cons op rest ih =>
    intro s g h
    simp only [List.foldl_cons] at h
    rcases ih (applyOp s op) g h with ⟨g₀, hg₀, hn, hf⟩ | ⟨batch, hb, hrest⟩
    · cases op with
      | upload batch =>
        rcases List.mem_append.mp hg₀ with h1 | h1
        · exact Or.inl ⟨g₀, h1, hn, hf⟩
        · exact Or.inr ⟨batch, List.mem_cons_self _ _, g₀, h1, hn, hf⟩
      | remove i =>
        exact Or.inl ⟨g₀, mem_removeFolder i s g₀ hg₀, hn, hf⟩
      | setProcessed i ps =>
        rcases mem_setProcessedAt i ps s g₀ hg₀ with ⟨g₁, hg₁, hn1, hf1⟩
        exact Or.inl ⟨g₁, hg₁, hn1.trans hn, hf1.trans hf⟩
    · exact Or.inr ⟨batch, List.mem_cons_of_mem _ hb, hrest⟩

/-- Counterexample to C7: uploading a folder named A twice (handleFolderUpload
appends the new groups to the previous state) reaches a state whose group
names are not pairwise distinct. -/
theorem runOps_duplicate_names :
    (runOps [Op.upload [⟨"A/x.png", ⟨"x.png", "image/png", 10, 0⟩⟩],
             Op.upload [⟨"A/y.png", ⟨"y.png", "image/png", 11, 1⟩⟩]]).map
        (fun g => g.name) = ["A", "A"] ∧
    ¬ ((runOps [Op.upload [⟨"A/x.png", ⟨"x.png", "image/png", 10, 0⟩⟩],
                Op.upload [⟨"A/y.png", ⟨"y.png", "image/png", 11, 1⟩⟩]]).map
        (fun g => g.name)).Nodup :=
  ⟨by decide, by decide⟩

/-- C7 amended: group names are pairwise distinct among the groups created
by a single upload, and membership is immutable: every group in any
reachable state carries exactly the name and file list given to it by the
upload that created it (removeFolder and the processFiles write-back never
change a group's files); but names need not be distinct across several
uploads of a run. -/
theorem runOps_provenance :
    (∀ batch : List UploadFile,
      ((groupFiles batch).map (fun g => g.name)).Nodup) ∧
    (∀ (ops : List Op) (g : FolderData), g ∈ runOps ops →
      ∃ batch, Op.upload batch ∈ ops ∧
        ∃ g₀ ∈ groupFiles batch, g₀.name = g.name ∧ g₀.files = g.files) := by
  constructor
  · intro batch
    exact foldl_insert_nodup batch [] (by simp)
  · intro ops g h
    rcases foldl_applyOp_from ops [] g h with ⟨g₀, hg₀, _⟩ | h2
    · simp at hg₀
    · exact h2

/-- Witness for the amended C7: the group A in the state reached by one
upload originates, name and files intact, from that upload. -/
theorem runOps_provenance_witness :
    (⟨"A", [⟨"x.png", "image/png", 10, 0⟩], []⟩ : FolderData)
        ∈ runOps [Op.upload [⟨"A/x.png", ⟨"x.png", "image/png", 10, 0⟩⟩]] ∧
    ∃ batch, Op.upload batch
          ∈ [Op.upload [⟨"A/x.png", ⟨"x.png", "image/png", 10, 0⟩⟩]] ∧
      ∃ g₀ ∈ groupFiles batch,
        g₀.name = (⟨"A", [⟨"x.png", "image/png", 10, 0⟩], []⟩ : FolderData).name ∧
        g₀.files = (⟨"A", [⟨"x.png", "image/png", 10, 0⟩], []⟩ : FolderData).files :=
  ⟨by decide,
    runOps_provenance.2 [Op.upload [⟨"A/x.png", ⟨"x.png", "image/png", 10, 0⟩⟩]]
      ⟨"A", [⟨"x.png", "image/png", 10, 0⟩], []⟩ (by decide)⟩

/-- Positions in an enumeration starting above j never equal j, so the
positional filter keeps everything. -/
theorem enumFrom_filter_all :
    ∀ (l : List FolderData) (m j : Nat), j < m →
      (List.enumFrom m l).filter (fun p => p.1 ≠ j) = List.enumFrom m l := by
  intro l
  induction l with
  | nil => intro m j _; rfl
  | cons a rest ih =>
    intro m j hj
    rw [List.enumFrom, List.filter_cons]
    have hne : m ≠ j := Nat.ne_of_gt hj
    rw [if_pos (by simp [hne])]
    rw [ih (m + 1) j (Nat.lt_succ_of_lt hj)]

/-- Filtering an enumeration from m by positions different from m + j and
keeping the payloads removes exactly the j-th element. -/
theorem removeFolder_aux :
    ∀ (l : List FolderData) (m j : Nat),
      ((List.enumFrom m l).filter (fun p => p.1 ≠ m + j)).map (fun p => p.2)
        = l.take j ++ l.drop (j + 1) := by
  intro l
  induction l with
  | nil => intro m j; simp
  | cons a rest ih =>
    intro m j
    rw [List.enumFrom, List.filter_cons]
    cases j with
    | zero =>
      rw [if_neg (by simp)]
      have hall := enumFrom_filter_all rest (m + 1) (m + 0) (by omega)
      rw [hall]
      simp [List.enumFrom_map_snd]
    | succ k =>
      have hc : m ≠ m + (k + 1) := by omega
      rw [if_pos (by simp [hc])]
      rw [List.map_cons]
      have harith : m + (k + 1) = (m + 1) + k := by omega
      rw [harith, ih (m + 1) k]
      simp [List.take_succ_cons, List.drop_succ_cons]

/-- C9: for a valid index i, removeFolder removes exactly the group at
position i from the pending selection — the resulting list is the
original with only that entry cut out, so every other group is unchanged
and keeps its relative order (and the removed group takes no further part
in processing or output, which iterate the updated list), and the length
drops by one. -/
theorem removeFolder_frame :
    ∀ (l : List FolderData) (i : Nat), i < l.length →
      removeFolder i l = l.take i ++ l.drop (i + 1) ∧
      (removeFolder i l).length + 1 = l.length := by
  intro l i hi
  have h := removeFolder_aux l 0 i
  have h0 : (0 : Nat) + i = i := by omega
  rw [h0] at h
  have hmain : removeFolder i l = l.take i ++ l.drop (i + 1) := h
  refine ⟨hmain, ?_⟩
  rw [hmain]
  simp only [List.length_append, List.length_take, List.length_drop]
  omega

/-- Witness for C9: removing index 1 from [A, B, C] leaves [A, C]. -/
theorem removeFolder_frame_witness :
    (1 : Nat) < ([⟨"A", [], []⟩, ⟨"B", [], []⟩, ⟨"C", [], []⟩]
        : List FolderData).length ∧
    removeFolder 1 [⟨"A", [], []⟩, ⟨"B", [], []⟩, ⟨"C", [], []⟩]
        = ([⟨"A", [], []⟩, ⟨"B", [], []⟩, ⟨"C", [], []⟩]
            : List FolderData).take 1
          ++ ([⟨"A", [], []⟩, ⟨"B", [], []⟩, ⟨"C", [], []⟩]
              : List FolderData).drop 2 ∧
    (removeFolder 1 [⟨"A", [], []⟩, ⟨"B", [], []⟩, ⟨"C", [], []⟩]).length + 1
        = ([⟨"A", [], []⟩, ⟨"B", [], []⟩, ⟨"C", [], []⟩]
            : List FolderData).length := by
  refine ⟨by decide, ?_, ?_⟩
  · exact (removeFolder_frame [⟨"A", [], []⟩, ⟨"B", [], []⟩, ⟨"C", [], []⟩] 1
      (by decide)).1
  · exact (removeFolder_frame [⟨"A", [], []⟩, ⟨"B", [], []⟩, ⟨"C", [], []⟩] 1
      (by decide)).2
